import Mathlib

/-
Verification of the diagnostic inference engine of the SN13 diagnostics MCP
server (`mcp-servers/sn13-diagnostics/server.py`): the catalog-driven log
scanner (`scan_logs`), the catalog lookup (`lookup_error`), the per-identity
health classifier and fleet aggregation (`check_x_accounts`), and the catalog
loader (`load_error_catalog`).

The Python `re` usage is embedded by a small regex AST (`Regex`) with a
backtracking matcher (`mtch`) that mirrors CPython's preference order
(leftmost alternative first, greedy `.*` longest first, `.` never matching a
newline), a scanner (`searchR` for `re.search`), and a non-overlapping
left-to-right match counter (`countFrom` for `len(re.findall(...))`).
`re.IGNORECASE` is embedded for ASCII by lower-casing both the pattern
literals (`lowerR`) and the subject text (`lowerL`).  Filesystem and process
collaborators (cookie-file existence and age, the fetched log text, the
backing catalog resource) are inputs, as the specification treats them.
-/

namespace SN13

/-- Regular-expression abstract syntax for the subset of Python `re` syntax that
`server.py` uses: literal characters, `.` (any character except newline),
the greedy `.*`, concatenation and `|` alternation.  `emp` matches the empty
string (the empty pattern / empty alternation branch). -/
inductive Regex where
  | emp : Regex
  | char : Char → Regex
  | dot : Regex
  | dotStar : Regex
  | cat : Regex → Regex → Regex
  | alt : Regex → Regex → Regex
deriving DecidableEq

/-- Suffixes reachable by letting a greedy `.*` consume characters, longest
consumption first (Python's backtracking preference); `.` never crosses a
newline. -/
def dsSuffixes : List Char → List (List Char)
  | [] => [[]]
  | a :: t => if a = '\n' then [a :: t] else dsSuffixes t ++ [a :: t]

/-- Anchored matching: the list of remaining suffixes after a match of `r` at
the start of `s`, in Python's backtracking preference order (first element =
the match the engine commits to). -/
def mtch : Regex → List Char → List (List Char)
  | .emp, s => [s]
  | .char _, [] => []
  | .char c, a :: t => if a = c then [t] else []
  | .dot, [] => []
  | .dot, a :: t => if a = '\n' then [] else [t]
  | .dotStar, s => dsSuffixes s
  | .cat r1 r2, s => (mtch r1 s).flatMap (mtch r2)
  | .alt r1 r2, s => mtch r1 s ++ mtch r2 s

/-- Model of `re.search`: try an anchored match at every position, left to
right. -/
def searchR (r : Regex) : List Char → Bool
  | [] => !(mtch r []).isEmpty
  | a :: t => !(mtch r (a :: t)).isEmpty || searchR r t

/-- Fuel-driven core of `len(re.findall(...))`: scan left to right, counting
non-overlapping matches; on a match resume at the match end (advancing one
character after an empty match), otherwise advance one position.  Fuel
`s.length + 1` always suffices. -/
def countF : Nat → Regex → List Char → Nat
  | 0, _, _ => 0
  | f + 1, r, s =>
    match (mtch r s).head?, s with
    | some _, [] => 1
    | some t, _ :: rest =>
      if t.length ≤ rest.length then 1 + countF f r t
      else 1 + countF f r rest
    | none, [] => 0
    | none, _ :: rest => countF f r rest

/-- The value of `len(re.findall(r, s))`. -/
def countFrom (r : Regex) (s : List Char) : Nat := countF (s.length + 1) r s

/-- Literal string as a regex (concatenation of its characters). -/
def strLit : List Char → Regex
  | [] => .emp
  | c :: cs => .cat (.char c) (strLit cs)

/-- Lower-case every literal character of a regex; together with lower-casing
the subject text this models Python's `re.IGNORECASE` for ASCII patterns. -/
def lowerR : Regex → Regex
  | .emp => .emp
  | .char c => .char c.toLower
  | .dot => .dot
  | .dotStar => .dotStar
  | .cat a b => .cat (lowerR a) (lowerR b)
  | .alt a b => .alt (lowerR a) (lowerR b)

def lowerL (s : List Char) : List Char := s.map Char.toLower

def upperL (s : List Char) : List Char := s.map Char.toUpper

/-- Syntactic criterion: every match of the regex consumes at least one
character. -/
def consumes : Regex → Bool
  | .emp => false
  | .char _ => true
  | .dot => true
  | .dotStar => false
  | .cat a b => consumes a || consumes b
  | .alt a b => consumes a && consumes b

/-- Syntactic criterion: no literal of the regex is a newline, so (with `.`
excluding newlines) no match can ever consume a `'\n'`. -/
def nlFreeR : Regex → Bool
  | .emp => true
  | .char c => c != '\n'
  | .dot => true
  | .dotStar => true
  | .cat a b => nlFreeR a && nlFreeR b
  | .alt a b => nlFreeR a && nlFreeR b

/-- Characters accepted as plain literals by the pattern compiler (everything
except the metacharacters of the supported `re` subset). -/
def litOK (c : Char) : Bool :=
  !(['(', ')', '|', '*', '.', '\\', '[', ']', '+', '?', '^', '$', '\x7b', '\x7d'].contains c)

/-- Metacharacters that may be escaped with a backslash (Python `re` treats
`\.` etc. as the literal character). -/
def escOK (c : Char) : Bool :=
  ['.', '\\', '(', ')', '|', '*', '+', '?', '[', ']', '^', '$', '-', '\x7b', '\x7d'].contains c

mutual

/-- Parse an alternation (`a|b|c`); lowest precedence. -/
def parseAlt : Nat → List Char → Option (Regex × List Char)
  | 0, _ => none
  | f + 1, s =>
    match parseSeq f s with
    | none => none
    | some (r, rest) =>
      match rest with
      | '|' :: rest2 =>
        match parseAlt f rest2 with
        | none => none
        | some (r2, rest3) => some (.alt r r2, rest3)
      | _ => some (r, rest)

/-- Parse a concatenation of pieces; a `*` may follow `.` (the only repetition
the supported subset knows).  Constructs outside the subset fail, which the
model treats like a pattern that does not compile. -/
def parseSeq : Nat → List Char → Option (Regex × List Char)
  | 0, _ => none
  | f + 1, s =>
    match s with
    | [] => some (.emp, [])
    | ')' :: t => some (.emp, ')' :: t)
    | '|' :: t => some (.emp, '|' :: t)
    | _ =>
      match parseAtom f s with
      | none => none
      | some (a, rest) =>
        match rest with
        | '*' :: rest2 =>
          if a = .dot then
            match parseSeq f rest2 with
            | none => none
            | some (r2, rest3) => some (.cat .dotStar r2, rest3)
          else none
        | _ =>
          match parseSeq f rest with
          | none => none
          | some (r2, rest3) => some (.cat a r2, rest3)

/-- Parse one atom: a group, `.`, an escaped metacharacter, or a literal. -/
def parseAtom : Nat → List Char → Option (Regex × List Char)
  | 0, _ => none
  | f + 1, s =>
    match s with
    | '(' :: t =>
      match parseAlt f t with
      | none => none
      | some (r, rest) =>
        match rest with
        | ')' :: rest2 => some (r, rest2)
        | _ => none
    | '.' :: t => some (.dot, t)
    | '\\' :: c :: t => if escOK c then some (.char c, t) else none
    | ['\\'] => none
    | c :: t => if litOK c then some (.char c, t) else none
    | [] => none

end

/-- Compile a pattern string into a regex, `none` on any pattern the model's
`re` subset cannot parse (Python's `re.error` cases are all `none`; the model
also maps some Python-valid constructs to `none`, which only narrows the set
of catalogs it can describe, never changing what `scan_logs` does on the
catalogs it covers). -/
def compilePattern (p : List Char) : Option Regex :=
  match parseAlt (2 * p.length + 4) p with
  | some (r, []) => some r
  | _ => none

/-- The character for decimal digit `d` (`d < 10`). -/
def digitChar (d : Nat) : Char := Char.ofNat (48 + d)

/-- Fuel-driven decimal printer (fuel `n + 1` always suffices). -/
def decAux : Nat → Nat → List Char → List Char
  | 0, _, acc => acc
  | f + 1, n, acc =>
    if n < 10 then digitChar n :: acc
    else decAux f (n / 10) (digitChar (n % 10) :: acc)

/-- Decimal representation of `n`, as Python's `str(n)` / f-string formatting
produces it. -/
def decRep (n : Nat) : List Char := decAux (n + 1) n []

/-- The identity-scoped tag `f"twikit_account{acc_num}"` (server.py line 283). -/
def tagCh (n : Nat) : List Char := "twikit_account".toList ++ decRep n

/-- The pattern `rf"X\.{acct_tag}"` (server.py line 285) — a literal string. -/
def pACT (n : Nat) : Regex := strLit ("X.".toList ++ tagCh n)

/-- The pattern `rf"{acct_tag}.*429|Pagination.*429.*{acct_tag}"` (server.py
line 287). -/
def p429 (n : Nat) : Regex :=
  .alt (.cat (strLit (tagCh n)) (.cat .dotStar (strLit "429".toList)))
    (.cat (strLit "Pagination".toList)
      (.cat .dotStar (.cat (strLit "429".toList) (.cat .dotStar (strLit (tagCh n))))))

/-- The pattern `rf"{acct_tag}.*(403|401|expired|suspended)"` (server.py line
289); the group only selects what `findall` returns, not what counts as a
match. -/
def pERR (n : Nat) : Regex :=
  .cat (strLit (tagCh n))
    (.cat .dotStar
      (.alt (strLit "403".toList)
        (.alt (strLit "401".toList)
          (.alt (strLit "expired".toList) (strLit "suspended".toList)))))

/-- The count `scheduled_count = len(re.findall(rf"X\.{acct_tag}", logs))` —
note this call passes no `re.IGNORECASE` flag (server.py line 285). -/
def countACT (n : Nat) (logs : List Char) : Nat := countFrom (pACT n) logs

/-- The count `scrape_429s = len(re.findall(..., logs, re.IGNORECASE))`
(server.py line 287). -/
def count429 (n : Nat) (logs : List Char) : Nat :=
  countFrom (lowerR (p429 n)) (lowerL logs)

/-- The count `scrape_errors = len(re.findall(..., logs, re.IGNORECASE))`
(server.py line 289). -/
def countERR (n : Nat) (logs : List Char) : Nat :=
  countFrom (lowerR (pERR n)) (lowerL logs)

/-- Does `w` occur as a contiguous subsequence of `s`?  (Python's `in` on
strings; executable companion of `occursL`.) -/
def hasSeq (w : List Char) : List Char → Bool
  | [] => w.isEmpty
  | a :: t => w.isPrefixOf (a :: t) || hasSeq w t

/-- Proposition that `w` occurs contiguously inside `s`. -/
def occursL (w s : List Char) : Prop := ∃ u v, s = u ++ w ++ v

/-- Is the head of `s` a decimal digit? -/
def digitHead : List Char → Bool
  | [] => false
  | c :: _ => c.isDigit

/-- Does `w` occur in `s` at a position where it is not immediately followed by
a further digit?  Used to say that a log line genuinely mentions the identity
whose tag is `w`, rather than an identity whose tag extends `w`. -/
def mentionsAt (w : List Char) : List Char → Bool
  | [] => false
  | a :: t => (w.isPrefixOf (a :: t) && !digitHead ((a :: t).drop w.length)) || mentionsAt w t

/-- The log text mentions identity `k`: its tag occurs and the occurrence is
not a strict prefix of a longer identity tag. -/
def mentionsId (k : Nat) (s : List Char) : Bool := mentionsAt (tagCh k) s

/-! ## Data model (server.py `scan_logs`, `lookup_error`, `check_x_accounts`) -/

/-- One entry of the error catalog JSON.  Each field models `err.get(key)`:
`none` when the key is absent. -/
structure CatalogEntry where
  id : Option String
  category : Option String
  severity : Option String
  pattern : Option String
  root_cause : Option String
  fix : Option String
deriving DecidableEq

/-- The loaded catalog: `{"version": ..., "errors": [...]}`. -/
structure Catalog where
  version : Option String
  errors : List CatalogEntry
deriving DecidableEq

/-- One element of `errors_found` (the dict built at server.py lines 153–159). -/
structure Finding where
  id : Option String
  category : Option String
  severity : Option String
  root_cause : Option String
  fix : Option String
deriving DecidableEq

/-- The `scan_logs` response record (server.py lines 163–173); the timestamp is
outside the model. -/
structure ScanResult where
  lines_scanned : Nat
  catalog_version : Option String
  errors_found : List Finding
  count : Nat
  status : String
deriving DecidableEq

/-- What `json.load` does on the backing file once it exists: either a parsed
catalog or an exception (malformed/unreadable content). -/
inductive JsonOutcome where
  | ok : Catalog → JsonOutcome
  | malformed : String → JsonOutcome
deriving DecidableEq

/-- Model of `load_error_catalog` (server.py lines 33–38).  The backing resource is
`none` when `ERROR_CATALOG_PATH.exists()` is false.  `Except.error` models an
exception propagating to the caller: the code guards only the existence check,
so a failing `json.load` on an existing file raises. -/
def load_error_catalog : Option JsonOutcome → Except String Catalog
  | none => .ok ⟨some "0", []⟩
  | some (.ok c) => .ok c
  | some (.malformed m) => .error m

/-- The finding built from a matching entry (server.py lines 153–159). -/
def mkFinding (e : CatalogEntry) : Finding :=
  ⟨e.id, e.category, e.severity, e.root_cause, e.fix⟩

/-- One iteration of the scan loop (server.py lines 148–161): skip falsy
patterns, try to compile, search case-insensitively, swallow `re.error`. -/
def entryMatches (logs : List Char) (e : CatalogEntry) : Bool :=
  if e.pattern.getD "" = "" then false
  else
    match compilePattern ((e.pattern.getD "").toList) with
    | some r => searchR (lowerR r) (lowerL logs)
    | none => false

/-- The `found` list of the scan loop. -/
def scanFound (errs : List CatalogEntry) (logs : List Char) : List Finding :=
  (errs.filter (entryMatches logs)).map mkFinding

/-- The `scan_logs` tool result (server.py lines 142–173) for a given catalog
and fetched log text. -/
def scan_logs (lines : Nat) (cat : Catalog) (logs : List Char) : ScanResult :=
  let found := scanFound cat.errors logs
  ⟨lines, cat.version, found, found.length,
    if found.isEmpty then "healthy"
    else if found.any (fun f => f.severity == some "high") then "critical"
    else "warning"⟩

/-- What `json.dumps(err)` yields, as the model serializes an entry: the present fields, in
the structure's field order, JSON-formatted.  `lookup_error` only ever
compares the query against this serialization, so the claims about it are
insensitive to the exact formatting. -/
def jfield (k : String) (v : Option String) : List (List Char) :=
  match v with
  | none => []
  | some s => (("\x22" ++ k ++ "\x22: \x22" ++ s ++ "\x22").toList) :: []

def serializeEntry (e : CatalogEntry) : List Char :=
  "\x7b".toList ++
    (List.intercalate ", ".toList
      (jfield "id" e.id ++ jfield "category" e.category ++ jfield "severity" e.severity ++
        jfield "pattern" e.pattern ++ jfield "root_cause" e.root_cause ++ jfield "fix" e.fix)) ++
  "\x7d".toList

/-- The `lookup_error` response record (server.py lines 245–249); `matched`
models the response's `matches` list (`matches` is unusable as a Lean field
name). -/
structure LookupResult where
  query : List Char
  matched : List CatalogEntry
  count : Nat
deriving DecidableEq

/-- Model of `lookup_error` (server.py lines 232–250): the query is upper-cased, each
entry matches by id (`err.get("id","").upper() == query`) or else by substring
of the serialized entry (`query.lower() in json.dumps(err).lower()`); the
`elif` appends each matching entry once. -/
def lookup_error (q : List Char) (cat : Catalog) : LookupResult :=
  let qU := upperL q
  let ms := cat.errors.filter
    (fun e =>
      (upperL (e.id.getD "").toList == qU) ||
        hasSeq (lowerL qU) (lowerL (serializeEntry e)))
  ⟨qU, ms, ms.length⟩

/-- The per-identity record built by `check_x_accounts` (server.py lines
259–308).  Fields that the missing-credential branch never computes are
`Option`s that stay `none` there. -/
structure AcctInfo where
  account : Nat
  status : String
  cookie_file : Bool
  cookie_age_hours : Option ℚ
  log_mentions : Option Nat
  rate_limits : Option Nat
  errors : Option Nat
  scheduled : Option Bool
deriving DecidableEq

/-- The `check_x_accounts` response record (server.py lines 312–323). -/
structure FleetReport where
  accounts : List AcctInfo
  active : Nat
  idle_or_rate_limited : Nat
  errors : Nat
  total : Nat
  overall : String
deriving DecidableEq

/-- The loop body for one account (server.py lines 259–308).  `cred n` models
`cookie_file.exists()` and `age n` the guarded `os.path.getmtime` age
computation (`none` when that raises); both are filesystem collaborators. -/
def classifyOne (cred : Nat → Bool) (age : Nat → Option ℚ) (logs : List Char) (n : Nat) :
    AcctInfo :=
  if cred n then
    let m := countACT n logs
    let r := count429 n logs
    let e := countERR n logs
    ⟨n,
      if 0 < m ∧ e = 0 then "active"
      else if 0 < r then "rate_limited"
      else if 0 < e then "error"
      else "idle",
      true, age n, some m, some r, some e, some (decide (0 < m))⟩
  else ⟨n, "missing", false, none, none, none, none, none⟩

/-- The aggregation over the per-identity records (server.py lines 310–321). -/
def aggregateFleet (results : List AcctInfo) (total : Nat) : FleetReport :=
  let a := results.countP (fun r => r.status == "active" || r.status == "scheduled")
  let e := results.countP (fun r => r.status == "error" || r.status == "missing")
  ⟨results, a,
    results.countP (fun r => r.status == "idle" || r.status == "rate_limited"),
    e, total,
    if 0 < a ∧ e = 0 then "healthy" else if 0 < a then "degraded" else "critical"⟩

/-- The `check_x_accounts` tool result (server.py lines 252–324). -/
def check_x_accounts (cred : Nat → Bool) (age : Nat → Option ℚ) (logs : List Char)
    (accounts : List Nat) : FleetReport :=
  aggregateFleet (accounts.map (classifyOne cred age logs)) accounts.length

/-! ## General lemmas about the matcher -/

theorem mem_of_head? {α : Type} {l : List α} {x : α} (h : l.head? = some x) : x ∈ l := by
  cases l with
  | nil => simp at h
  | cons a t => simp at h; simp [h]

theorem dsSuffixes_suffix {t s : List Char} (h : t ∈ dsSuffixes s) : ∃ u, s = u ++ t := by
  induction s with
  | nil =>
    simp [dsSuffixes] at h
    exact ⟨[], by simp [h]⟩
  | cons a s ih =>
    by_cases ha : a = '\n'
    · simp [dsSuffixes, ha] at h
      exact ⟨[], by simp [h, ha]⟩
    · simp [dsSuffixes, ha] at h
      rcases h with h | h
      · rcases ih h with ⟨u, hu⟩
        exact ⟨a :: u, by simp [hu]⟩
      · exact ⟨[], by simp [h]⟩

theorem mtch_suffix {r : Regex} : ∀ {s t : List Char}, t ∈ mtch r s → ∃ u, s = u ++ t := by
  induction r with
  | emp =>
    intro s t h
    simp [mtch] at h
    exact ⟨[], by simp [h]⟩
  | char c =>
    intro s t h
    cases s with
    | nil => simp [mtch] at h
    | cons a s' =>
      by_cases hac : a = c <;> simp [mtch, hac] at h
      exact ⟨[a], by simp [h]⟩
  | dot =>
    intro s t h
    cases s with
    | nil => simp [mtch] at h
    | cons a s' =>
      by_cases ha2 : a = '\n' <;> simp [mtch, ha2] at h
      exact ⟨[a], by simp [h]⟩
  | dotStar =>
    intro s t h
    exact dsSuffixes_suffix h
  | cat r1 r2 ih1 ih2 =>
    intro s t h
    simp [mtch, List.mem_flatMap] at h
    obtain ⟨m, hm, ht⟩ := h
    obtain ⟨u1, hu1⟩ := ih1 hm
    obtain ⟨u2, hu2⟩ := ih2 ht
    exact ⟨u1 ++ u2, by simp [hu1, hu2]⟩
  | alt r1 r2 ih1 ih2 =>
    intro s t h
    simp [mtch] at h
    rcases h with h | h
    · exact ih1 h
    · exact ih2 h

theorem mtch_length {r : Regex} {s t : List Char} (h : t ∈ mtch r s) : t.length ≤ s.length := by
  obtain ⟨u, hu⟩ := mtch_suffix h
  simp [hu]

theorem consumes_lt {r : Regex} (hc : consumes r = true) :
    ∀ {s t : List Char}, t ∈ mtch r s → t.length < s.length := by
  induction r with
  | emp => simp [consumes] at hc
  | char c =>
    intro s t h
    cases s with
    | nil => simp [mtch] at h
    | cons a s' =>
      by_cases hac : a = c <;> simp [mtch, hac] at h
      simp [h]
  | dot =>
    intro s t h
    cases s with
    | nil => simp [mtch] at h
    | cons a s' =>
      by_cases hn : a = '\n' <;> simp [mtch, hn] at h
      simp [h]
  | dotStar => simp [consumes] at hc
  | cat r1 r2 ih1 ih2 =>
    simp [consumes] at hc
    intro s t h
    simp [mtch, List.mem_flatMap] at h
    obtain ⟨m, hm, ht⟩ := h
    rcases hc with hc1 | hc2
    · exact Nat.lt_of_le_of_lt (mtch_length ht) (ih1 hc1 hm)
    · exact Nat.lt_of_lt_of_le (ih2 hc2 ht) (mtch_length hm)
  | alt r1 r2 ih1 ih2 =>
    simp [consumes] at hc
    intro s t h
    simp [mtch] at h
    rcases h with h | h
    · exact ih1 hc.1 h
    · exact ih2 hc.2 h

theorem mtch_nil_of_consumes {r : Regex} (hc : consumes r = true) : mtch r [] = [] := by
  rw [List.eq_nil_iff_forall_not_mem]
  intro t ht
  have := consumes_lt hc ht
  simp at this

theorem dsSuffixes_append_nl (B : List Char) :
    ∀ A : List Char, dsSuffixes (A ++ '\n' :: B) = (dsSuffixes A).map (· ++ '\n' :: B) := by
  intro A
  induction A with
  | nil => simp [dsSuffixes]
  | cons a A' ih =>
    by_cases ha : a = '\n'
    · simp [dsSuffixes, ha]
    · simp [dsSuffixes, ha, ih]

theorem mtch_append_nl {r : Regex} (hn : nlFreeR r = true) (B : List Char) :
    ∀ A : List Char, mtch r (A ++ '\n' :: B) = (mtch r A).map (· ++ '\n' :: B) := by
  induction r with
  | emp => intro A; simp [mtch]
  | char c =>
    intro A
    have hc : c ≠ '\n' := by simpa [nlFreeR] using hn
    cases A with
    | nil =>
      have hc2 : ¬('\n' = c) := fun h => hc h.symm
      simp [mtch, hc2]
    | cons a A' =>
      by_cases hac : a = c <;> simp [mtch, hac]
  | dot =>
    intro A
    cases A with
    | nil => simp [mtch]
    | cons a A' =>
      by_cases ha : a = '\n' <;> simp [mtch, ha]
  | dotStar =>
    intro A
    exact dsSuffixes_append_nl B A
  | cat r1 r2 ih1 ih2 =>
    simp only [nlFreeR, Bool.and_eq_true] at hn
    intro A
    calc (mtch r1 (A ++ '\n' :: B)).flatMap (mtch r2)
        = ((mtch r1 A).map (· ++ '\n' :: B)).flatMap (mtch r2) := by rw [ih1 hn.1]
      _ = (mtch r1 A).flatMap (fun x => mtch r2 (x ++ '\n' :: B)) := by
          rw [List.flatMap_map]
      _ = (mtch r1 A).flatMap (fun x => (mtch r2 x).map (· ++ '\n' :: B)) := by
          simp only [ih2 hn.2]
      _ = ((mtch r1 A).flatMap (mtch r2)).map (· ++ '\n' :: B) := by
          rw [List.map_flatMap]
  | alt r1 r2 ih1 ih2 =>
    simp only [nlFreeR, Bool.and_eq_true] at hn
    intro A
    simp [mtch, ih1 hn.1, ih2 hn.2]

theorem strLit_mtch : ∀ {w s t : List Char}, t ∈ mtch (strLit w) s → s = w ++ t := by
  intro w
  induction w with
  | nil =>
    intro s t h
    simp [strLit, mtch] at h
    simp [h]
  | cons c cs ih =>
    intro s t h
    simp [strLit, mtch, List.mem_flatMap] at h
    obtain ⟨m, hm, ht⟩ := h
    cases s with
    | nil => simp [mtch] at hm
    | cons a s' =>
      by_cases hac : a = c <;> simp [mtch, hac] at hm
      subst hac
      subst hm
      simp [ih ht]

theorem countF_stable (r : Regex) :
    ∀ (N : Nat) (s : List Char), s.length ≤ N →
      ∀ f g, s.length < f → s.length < g → countF f r s = countF g r s := by
  intro N
  induction N with
  | zero =>
    intro s hs f g hf hg
    have hnil : s = [] := List.eq_nil_of_length_eq_zero (Nat.le_zero.mp hs)
    subst hnil
    obtain ⟨f', rfl⟩ : ∃ f', f = f' + 1 := ⟨f - 1, by omega⟩
    obtain ⟨g', rfl⟩ : ∃ g', g = g' + 1 := ⟨g - 1, by omega⟩
    cases h : (mtch r []).head? <;> simp [countF, h]
  | succ N ih =>
    intro s hs f g hf hg
    cases s with
    | nil =>
      obtain ⟨f', rfl⟩ : ∃ f', f = f' + 1 := ⟨f - 1, by omega⟩
      obtain ⟨g', rfl⟩ : ∃ g', g = g' + 1 := ⟨g - 1, by omega⟩
      cases h : (mtch r []).head? <;> simp [countF, h]
    | cons a rest =>
      obtain ⟨f', rfl⟩ : ∃ f', f = f' + 1 := ⟨f - 1, by omega⟩
      obtain ⟨g', rfl⟩ : ∃ g', g = g' + 1 := ⟨g - 1, by omega⟩
      simp only [List.length_cons] at hf hg hs
      cases h : (mtch r (a :: rest)).head? with
      | none =>
        simp only [countF, h]
        exact ih rest (by omega) f' g' (by omega) (by omega)
      | some t =>
        by_cases hl : t.length ≤ rest.length
        · simp only [countF, h, if_pos hl]
          have := ih t (by omega) f' g' (by omega) (by omega)
          omega
        · simp only [countF, h, if_neg hl]
          have := ih rest (by omega) f' g' (by omega) (by omega)
          omega

theorem countFrom_nil_none {r : Regex} (h : (mtch r []).head? = none) :
    countFrom r [] = 0 := by
  simp [countFrom, countF, h]

theorem countFrom_cons_none {r : Regex} {a : Char} {rest : List Char}
    (h : (mtch r (a :: rest)).head? = none) :
    countFrom r (a :: rest) = countFrom r rest := by
  simp [countFrom, countF, h]

theorem countFrom_cons_some {r : Regex} {a : Char} {rest t : List Char}
    (h : (mtch r (a :: rest)).head? = some t) (hl : t.length ≤ rest.length) :
    countFrom r (a :: rest) = 1 + countFrom r t := by
  have hL : countFrom r (a :: rest) = 1 + countF (rest.length + 1) r t := by
    show countF (rest.length + 1 + 1) r (a :: rest) = 1 + countF (rest.length + 1) r t
    simp only [countF, h, if_pos hl]
  rw [hL, countF_stable r t.length t (Nat.le_refl _) (rest.length + 1) (t.length + 1)
    (by omega) (by omega)]
  rfl

theorem countFrom_nil_of_consumes {r : Regex} (hc : consumes r = true) :
    countFrom r [] = 0 :=
  countFrom_nil_none (by simp [mtch_nil_of_consumes hc])

theorem countFrom_append_nl {r : Regex} (hn : nlFreeR r = true) (hc : consumes r = true) :
    ∀ (N : Nat) (A : List Char), A.length ≤ N → ∀ B : List Char,
      countFrom r (A ++ '\n' :: B) = countFrom r A + countFrom r ('\n' :: B) := by
  intro N
  induction N with
  | zero =>
    intro A hA B
    have hnil : A = [] := List.eq_nil_of_length_eq_zero (Nat.le_zero.mp hA)
    subst hnil
    simp [countFrom_nil_of_consumes hc]
  | succ N ih =>
    intro A hA B
    cases A with
    | nil => simp [countFrom_nil_of_consumes hc]
    | cons a A' =>
      have hsplit := mtch_append_nl hn B (a :: A')
      simp only [List.cons_append] at hsplit ⊢
      simp only [List.length_cons] at hA
      cases h : (mtch r (a :: A')).head? with
      | none =>
        have hbig : (mtch r (a :: (A' ++ '\n' :: B))).head? = none := by
          rw [hsplit, List.head?_map, h]
          rfl
        rw [countFrom_cons_none hbig, countFrom_cons_none h]
        exact ih A' (by omega) B
      | some t =>
        have htmem : t ∈ mtch r (a :: A') := mem_of_head? h
        have htlen : t.length < A'.length + 1 := by
          simpa using consumes_lt hc htmem
        have hbig : (mtch r (a :: (A' ++ '\n' :: B))).head? = some (t ++ '\n' :: B) := by
          rw [hsplit, List.head?_map, h]
          rfl
        rw [countFrom_cons_some hbig (by simp; omega), countFrom_cons_some h (by omega)]
        have := ih t (by omega) B
        omega

theorem countFrom_append {r : Regex} (hn : nlFreeR r = true) (hc : consumes r = true)
    (A B : List Char) :
    countFrom r (A ++ '\n' :: B) = countFrom r A + countFrom r ('\n' :: B) :=
  countFrom_append_nl hn hc A.length A (Nat.le_refl _) B

theorem countFrom_pos {r : Regex} :
    ∀ (N : Nat) (s : List Char), s.length ≤ N → 0 < countFrom r s →
      ∃ u t, s = u ++ t ∧ mtch r t ≠ [] := by
  intro N
  induction N with
  | zero =>
    intro s hs hpos
    have hnil : s = [] := List.eq_nil_of_length_eq_zero (Nat.le_zero.mp hs)
    subst hnil
    cases h : (mtch r []).head? with
    | none => rw [countFrom_nil_none h] at hpos; omega
    | some t =>
      refine ⟨[], [], rfl, ?_⟩
      intro hcon
      rw [hcon] at h
      simp at h
  | succ N ih =>
    intro s hs hpos
    cases s with
    | nil =>
      cases h : (mtch r []).head? with
      | none => rw [countFrom_nil_none h] at hpos; omega
      | some t =>
        refine ⟨[], [], rfl, ?_⟩
        intro hcon
        rw [hcon] at h
        simp at h
    | cons a rest =>
      cases h : (mtch r (a :: rest)).head? with
      | none =>
        rw [countFrom_cons_none h] at hpos
        obtain ⟨u, t, hsplit, hne⟩ := ih rest (by simp at hs; omega) hpos
        exact ⟨a :: u, t, by simp [hsplit], hne⟩
      | some t =>
        refine ⟨[], a :: rest, rfl, ?_⟩
        intro hcon
        rw [hcon] at h
        simp at h

theorem isPrefixOf_iff : ∀ {w s : List Char}, w.isPrefixOf s = true ↔ ∃ t, s = w ++ t := by
  intro w
  induction w with
  | nil => intro s; simp [List.isPrefixOf]
  | cons c cs ih =>
    intro s
    cases s with
    | nil => simp [List.isPrefixOf]
    | cons a s' =>
      simp only [List.isPrefixOf, Bool.and_eq_true, beq_iff_eq, ih, List.cons_append,
        List.cons.injEq]
      constructor
      · rintro ⟨rfl, t, rfl⟩
        exact ⟨t, rfl, rfl⟩
      · rintro ⟨t, rfl, rfl⟩
        exact ⟨rfl, t, rfl⟩

theorem occursL_cons {w s : List Char} {a : Char} (h : occursL w (a :: s)) :
    (∃ v, a :: s = w ++ v) ∨ occursL w s := by
  obtain ⟨u, v, huv⟩ := h
  cases u with
  | nil => exact Or.inl ⟨v, by simpa using huv⟩
  | cons b u' =>
    simp only [List.cons_append, List.cons.injEq] at huv
    exact Or.inr ⟨u', v, huv.2⟩

theorem hasSeq_iff : ∀ {w s : List Char}, hasSeq w s = true ↔ occursL w s := by
  intro w s
  induction s with
  | nil =>
    simp only [hasSeq, List.isEmpty_iff, occursL]
    constructor
    · rintro rfl
      exact ⟨[], [], rfl⟩
    · rintro ⟨u, v, huv⟩
      have hlen := congrArg List.length huv
      simp at hlen
      exact List.eq_nil_of_length_eq_zero (by omega)
  | cons a t ih =>
    simp only [hasSeq, Bool.or_eq_true, isPrefixOf_iff, ih]
    constructor
    · rintro (⟨v, hv⟩ | h)
      · exact ⟨[], v, by simpa using hv⟩
      · obtain ⟨u, v, huv⟩ := h
        exact ⟨a :: u, v, by simp [huv]⟩
    · intro h
      rcases occursL_cons h with h1 | h2
      · exact Or.inl h1
      · exact Or.inr h2

theorem occursL_append_left {w t : List Char} (u : List Char) (h : occursL w t) :
    occursL w (u ++ t) := by
  obtain ⟨x, y, hxy⟩ := h
  exact ⟨u ++ x, y, by simp [hxy]⟩

theorem occursL_drop_front {x w s : List Char} (h : occursL (x ++ w) s) : occursL w s := by
  obtain ⟨u, v, huv⟩ := h
  exact ⟨u ++ x, v, by simp [huv]⟩

theorem occursL_map {w s : List Char} (f : Char → Char) (h : occursL w s) :
    occursL (w.map f) (s.map f) := by
  obtain ⟨u, v, huv⟩ := h
  exact ⟨u.map f, v.map f, by simp [huv]⟩

theorem occursL_cons_nl {w s : List Char} {c : Char} {w' : List Char} {a : Char}
    (hw : w = c :: w') (hc : c ≠ a) (h : occursL w (a :: s)) : occursL w s := by
  rcases occursL_cons h with ⟨v, hv⟩ | h2
  · rw [hw] at hv
    simp only [List.cons_append, List.cons.injEq] at hv
    exact absurd hv.1.symm hc
  · exact h2

theorem lowerR_strLit : ∀ w : List Char, lowerR (strLit w) = strLit (lowerL w) := by
  intro w
  induction w with
  | nil => simp [strLit, lowerL, lowerR]
  | cons c cs ih => simp [strLit, lowerL, lowerR, ih]

theorem consumes_lowerR : ∀ r : Regex, consumes (lowerR r) = consumes r := by
  intro r
  induction r <;> simp [lowerR, consumes, *]

theorem consumes_strLit_cons (c : Char) (w : List Char) :
    consumes (strLit (c :: w)) = true := by
  simp [strLit, consumes]

theorem nlFree_strLit {w : List Char} (h : ∀ c ∈ w, c ≠ '\n') :
    nlFreeR (strLit w) = true := by
  induction w with
  | nil => simp [strLit, nlFreeR]
  | cons c cs ih =>
    simp only [strLit, nlFreeR, Bool.and_eq_true]
    refine ⟨?_, ih fun d hd => h d (List.mem_cons_of_mem _ hd)⟩
    simpa using h c (List.mem_cons_self _ _)

theorem decAux_mem : ∀ (f n : Nat) (acc : List Char) (c : Char), c ∈ decAux f n acc →
    (∃ d, d < 10 ∧ c = digitChar d) ∨ c ∈ acc := by
  intro f
  induction f with
  | zero => intro n acc c h; exact Or.inr (by simpa [decAux] using h)
  | succ f ih =>
    intro n acc c h
    by_cases hn : n < 10
    · simp only [decAux, if_pos hn, List.mem_cons] at h
      rcases h with h | h
      · exact Or.inl ⟨n, hn, h⟩
      · exact Or.inr h
    · simp only [decAux, if_neg hn] at h
      rcases ih (n / 10) (digitChar (n % 10) :: acc) c h with h1 | h1
      · exact Or.inl h1
      · rcases List.mem_cons.mp h1 with h2 | h2
        · exact Or.inl ⟨n % 10, Nat.mod_lt _ (by omega), h2⟩
        · exact Or.inr h2

theorem decRep_mem {n : Nat} {c : Char} (h : c ∈ decRep n) :
    ∃ d, d < 10 ∧ c = digitChar d := by
  rcases decAux_mem (n + 1) n [] c h with h1 | h1
  · exact h1
  · simp at h1

theorem digit_facts : ∀ d, d < 10 → (digitChar d).toLower = digitChar d ∧ digitChar d ≠ '\n' := by
  decide

theorem tag_chars {n : Nat} : ∀ c ∈ tagCh n, c.toLower = c ∧ c ≠ '\n' := by
  intro c hc
  rw [tagCh, List.mem_append] at hc
  rcases hc with hc | hc
  · exact (by decide : ∀ c ∈ "twikit_account".toList, c.toLower = c ∧ c ≠ '\n') c hc
  · obtain ⟨d, hd, rfl⟩ := decRep_mem hc
    exact digit_facts d hd

theorem tag_lower (n : Nat) : lowerL (tagCh n) = tagCh n := by
  rw [lowerL]
  calc (tagCh n).map Char.toLower
      = (tagCh n).map id := List.map_congr_left (fun c hc => (tag_chars c hc).1)
    _ = tagCh n := List.map_id _

theorem tag_cons (n : Nat) : tagCh n = 't' :: ("wikit_account".toList ++ decRep n) := rfl

theorem nlFree_tag (n : Nat) : nlFreeR (strLit (tagCh n)) = true :=
  nlFree_strLit (fun c hc => (tag_chars c hc).2)

theorem consumes_tag (n : Nat) : consumes (strLit (tagCh n)) = true := by
  rw [tag_cons]
  exact consumes_strLit_cons _ _

theorem lowerR_alt (a b : Regex) : lowerR (.alt a b) = .alt (lowerR a) (lowerR b) := rfl

theorem lowerR_cat (a b : Regex) : lowerR (.cat a b) = .cat (lowerR a) (lowerR b) := rfl

theorem lowerR_dotStar : lowerR .dotStar = .dotStar := rfl

theorem nlFreeR_alt (a b : Regex) : nlFreeR (.alt a b) = (nlFreeR a && nlFreeR b) := rfl

theorem nlFreeR_cat (a b : Regex) : nlFreeR (.cat a b) = (nlFreeR a && nlFreeR b) := rfl

theorem nlFreeR_dotStar : nlFreeR .dotStar = true := rfl

theorem consumes_alt (a b : Regex) : consumes (.alt a b) = (consumes a && consumes b) := rfl

theorem consumes_cat (a b : Regex) : consumes (.cat a b) = (consumes a || consumes b) := rfl

theorem consumes_dotStar : consumes .dotStar = false := rfl

theorem lowerR_p429 (n : Nat) : lowerR (p429 n) =
    .alt (.cat (strLit (tagCh n)) (.cat .dotStar (strLit "429".toList)))
      (.cat (strLit "pagination".toList)
        (.cat .dotStar (.cat (strLit "429".toList) (.cat .dotStar (strLit (tagCh n)))))) := by
  have h1 : lowerL "Pagination".toList = "pagination".toList := by decide
  have h2 : lowerL "429".toList = "429".toList := by decide
  simp only [p429, lowerR_alt, lowerR_cat, lowerR_dotStar, lowerR_strLit, tag_lower, h1, h2]

theorem lowerR_pERR (n : Nat) : lowerR (pERR n) =
    .cat (strLit (tagCh n))
      (.cat .dotStar
        (.alt (strLit "403".toList)
          (.alt (strLit "401".toList)
            (.alt (strLit "expired".toList) (strLit "suspended".toList))))) := by
  have h1 : lowerL "403".toList = "403".toList := by decide
  have h2 : lowerL "401".toList = "401".toList := by decide
  have h3 : lowerL "expired".toList = "expired".toList := by decide
  have h4 : lowerL "suspended".toList = "suspended".toList := by decide
  simp only [pERR, lowerR_alt, lowerR_cat, lowerR_dotStar, lowerR_strLit, tag_lower, h1, h2, h3, h4]

theorem pACT_eq (n : Nat) : pACT n = strLit ('X' :: '.' :: tagCh n) := rfl

theorem nlFree_pACT (n : Nat) : nlFreeR (pACT n) = true := by
  rw [pACT_eq]
  refine nlFree_strLit ?_
  intro c hc
  rcases List.mem_cons.mp hc with rfl | hc
  · decide
  · rcases List.mem_cons.mp hc with rfl | hc
    · decide
    · exact (tag_chars c hc).2

theorem consumes_pACT (n : Nat) : consumes (pACT n) = true := by
  rw [pACT_eq]
  exact consumes_strLit_cons _ _

theorem nlFree_p429L (n : Nat) : nlFreeR (lowerR (p429 n)) = true := by
  rw [lowerR_p429]
  simp only [nlFreeR_alt, nlFreeR_cat, nlFreeR_dotStar, nlFree_tag,
    (by decide : nlFreeR (strLit "429".toList) = true),
    (by decide : nlFreeR (strLit "pagination".toList) = true),
    Bool.and_true, Bool.true_and, Bool.and_self]

theorem consumes_p429L (n : Nat) : consumes (lowerR (p429 n)) = true := by
  rw [lowerR_p429]
  simp only [consumes_alt, consumes_cat, consumes_tag,
    (by decide : consumes (strLit "pagination".toList) = true),
    Bool.true_or, Bool.and_self]

theorem nlFree_pERRL (n : Nat) : nlFreeR (lowerR (pERR n)) = true := by
  rw [lowerR_pERR]
  simp only [nlFreeR_alt, nlFreeR_cat, nlFreeR_dotStar, nlFree_tag,
    (by decide : nlFreeR (strLit "403".toList) = true),
    (by decide : nlFreeR (strLit "401".toList) = true),
    (by decide : nlFreeR (strLit "expired".toList) = true),
    (by decide : nlFreeR (strLit "suspended".toList) = true),
    Bool.and_true, Bool.true_and, Bool.and_self]

theorem consumes_pERRL (n : Nat) : consumes (lowerR (pERR n)) = true := by
  rw [lowerR_pERR]
  simp only [consumes_cat, consumes_tag, Bool.true_or]

theorem mtch_alt (a b : Regex) (s : List Char) :
    mtch (.alt a b) s = mtch a s ++ mtch b s := rfl

theorem mtch_cat (a b : Regex) (s : List Char) :
    mtch (.cat a b) s = (mtch a s).flatMap (mtch b) := rfl

theorem pACT_occurs {n : Nat} {t : List Char} (h : mtch (pACT n) t ≠ []) :
    occursL ('X' :: '.' :: tagCh n) t := by
  obtain ⟨x, hx⟩ := List.exists_mem_of_ne_nil _ h
  rw [pACT_eq] at hx
  exact ⟨[], x, by simpa using strLit_mtch hx⟩

theorem p429_occurs {n : Nat} {t : List Char} (h : mtch (lowerR (p429 n)) t ≠ []) :
    occursL (tagCh n) t := by
  rw [lowerR_p429] at h
  obtain ⟨x, hx⟩ := List.exists_mem_of_ne_nil _ h
  rw [mtch_alt, List.mem_append] at hx
  rcases hx with hx | hx
  · rw [mtch_cat, List.mem_flatMap] at hx
    obtain ⟨m, hm, _⟩ := hx
    exact ⟨[], m, by simpa using strLit_mtch hm⟩
  · simp only [mtch_cat, List.mem_flatMap] at hx
    obtain ⟨m1, hm1, m2, hm2, m3, hm3, m4, hm4, hx5⟩ := hx
    have h4 : occursL (tagCh n) m4 := ⟨[], x, by simpa using strLit_mtch hx5⟩
    obtain ⟨u4, hu4⟩ := mtch_suffix hm4
    have h3 : occursL (tagCh n) m3 := hu4 ▸ occursL_append_left u4 h4
    have h2 : occursL (tagCh n) m2 := by
      rw [strLit_mtch hm3]
      exact occursL_append_left _ h3
    obtain ⟨u2, hu2⟩ := mtch_suffix hm2
    have h1 : occursL (tagCh n) m1 := hu2 ▸ occursL_append_left u2 h2
    rw [strLit_mtch hm1]
    exact occursL_append_left _ h1

theorem pERR_occurs {n : Nat} {t : List Char} (h : mtch (lowerR (pERR n)) t ≠ []) :
    occursL (tagCh n) t := by
  rw [lowerR_pERR] at h
  obtain ⟨x, hx⟩ := List.exists_mem_of_ne_nil _ h
  rw [mtch_cat, List.mem_flatMap] at hx
  obtain ⟨m, hm, _⟩ := hx
  exact ⟨[], m, by simpa using strLit_mtch hm⟩

theorem tag_lower_map (n : Nat) : (tagCh n).map Char.toLower = tagCh n := tag_lower n

theorem countFrom_nl_zero {r : Regex} {n : Nat} {m : List Char}
    (hocc : ∀ t, mtch r t ≠ [] → occursL (tagCh n) t)
    (h : hasSeq (tagCh n) m = false) : countFrom r ('\n' :: m) = 0 := by
  by_contra hne
  have hpos : 0 < countFrom r ('\n' :: m) := Nat.pos_of_ne_zero hne
  obtain ⟨u, t, hsplit, htm⟩ := countFrom_pos ('\n' :: m).length ('\n' :: m) (Nat.le_refl _) hpos
  have h1 : occursL (tagCh n) ('\n' :: m) := hsplit ▸ occursL_append_left u (hocc t htm)
  have h2 : occursL (tagCh n) m := occursL_cons_nl (tag_cons n) (by decide) h1
  rw [← hasSeq_iff] at h2
  simp [h2] at h

theorem countACT_nl_zero {n : Nat} {m : List Char}
    (h : hasSeq (tagCh n) (lowerL m) = false) : countFrom (pACT n) ('\n' :: m) = 0 := by
  by_contra hne
  have hpos : 0 < countFrom (pACT n) ('\n' :: m) := Nat.pos_of_ne_zero hne
  obtain ⟨u, t, hsplit, htm⟩ := countFrom_pos ('\n' :: m).length ('\n' :: m) (Nat.le_refl _) hpos
  have h1 : occursL ('X' :: '.' :: tagCh n) ('\n' :: m) :=
    hsplit ▸ occursL_append_left u (pACT_occurs htm)
  have h2 := occursL_map Char.toLower h1
  have hmapw : ('X' :: '.' :: tagCh n).map Char.toLower = 'x' :: '.' :: tagCh n := by
    simp only [List.map_cons, tag_lower_map]
    rw [(by decide : 'X'.toLower = 'x'), (by decide : '.'.toLower = '.')]
  have hmaps : ('\n' :: m).map Char.toLower = '\n' :: lowerL m := by
    simp only [List.map_cons]
    rw [(by decide : '\n'.toLower = '\n')]
    rfl
  rw [hmapw, hmaps] at h2
  have h3 : occursL (tagCh n) ('\n' :: lowerL m) := by
    have := occursL_drop_front (x := ['x', '.']) (w := tagCh n) (by simpa using h2)
    exact this
  have h4 : occursL (tagCh n) (lowerL m) := occursL_cons_nl (tag_cons n) (by decide) h3
  rw [← hasSeq_iff] at h4
  simp [h4] at h

theorem lowerL_append_nl (L m : List Char) :
    lowerL (L ++ '\n' :: m) = lowerL L ++ '\n' :: lowerL m := by
  simp only [lowerL, List.map_append, List.map_cons]
  rw [(by decide : '\n'.toLower = '\n')]

theorem countACT_append {n : Nat} {L m : List Char}
    (h : hasSeq (tagCh n) (lowerL m) = false) :
    countACT n (L ++ '\n' :: m) = countACT n L := by
  rw [countACT, countACT, countFrom_append (nlFree_pACT n) (consumes_pACT n),
    countACT_nl_zero h]
  omega

theorem count429_append {n : Nat} {L m : List Char}
    (h : hasSeq (tagCh n) (lowerL m) = false) :
    count429 n (L ++ '\n' :: m) = count429 n L := by
  rw [count429, count429, lowerL_append_nl,
    countFrom_append (nlFree_p429L n) (consumes_p429L n),
    countFrom_nl_zero (fun t ht => p429_occurs ht) h]
  omega

theorem countERR_append {n : Nat} {L m : List Char}
    (h : hasSeq (tagCh n) (lowerL m) = false) :
    countERR n (L ++ '\n' :: m) = countERR n L := by
  rw [countERR, countERR, lowerL_append_nl,
    countFrom_append (nlFree_pERRL n) (consumes_pERRL n),
    countFrom_nl_zero (fun t ht => pERR_occurs ht) h]
  omega

theorem classifyOne_append (cred : Nat → Bool) (age : Nat → Option ℚ) (L m : List Char)
    (n : Nat) (h : hasSeq (tagCh n) (lowerL m) = false) :
    classifyOne cred age (L ++ '\n' :: m) n = classifyOne cred age L n := by
  unfold classifyOne
  by_cases hc : cred n
  · simp only [hc, if_true, countACT_append h, count429_append h, countERR_append h]
  · simp [hc]

theorem char_toNat_ofNat {n : Nat} (h : n.isValidChar) : (Char.ofNat n).toNat = n := by
  rw [Char.ofNat, dif_pos h]
  rfl

theorem toLower_toUpper (c : Char) : c.toUpper.toLower = c.toLower := by
  by_cases h : c.toNat ≥ 97 ∧ c.toNat ≤ 122
  · have hup : c.toUpper = Char.ofNat (c.toNat - 32) := by
      simp only [Char.toUpper]
      rw [if_pos h]
    have hv : (c.toNat - 32).isValidChar := Or.inl (by omega)
    have ht : (Char.ofNat (c.toNat - 32)).toNat = c.toNat - 32 := char_toNat_ofNat hv
    rw [hup]
    simp only [Char.toLower, ht]
    rw [if_pos (⟨by omega, by omega⟩ : c.toNat - 32 ≥ 65 ∧ c.toNat - 32 ≤ 90),
      if_neg (by omega : ¬(c.toNat ≥ 65 ∧ c.toNat ≤ 90))]
    rw [show c.toNat - 32 + 32 = c.toNat from by omega, Char.ofNat_toNat]
  · have hup : c.toUpper = c := by
      simp only [Char.toUpper]
      rw [if_neg h]
    rw [hup]

theorem lowerL_upperL (s : List Char) : lowerL (upperL s) = lowerL s := by
  simp only [lowerL, upperL, List.map_map]
  exact List.map_congr_left (fun c _ => toLower_toUpper c)

/-! ## Claim theorems -/

/-- C4 counterexample: when the backing file exists but `json.load` fails
(malformed or unreadable content), `load_error_catalog` propagates the
exception to its caller instead of returning the default catalog, so "Load
never raises ... returns the empty/default catalog ... whenever the backing
resource is missing, unreadable, or malformed" is false at this input. -/
theorem C4_counterexample :
    load_error_catalog (some (.malformed "Expecting value: line 1 column 1 (char 0)")) =
      Except.error "Expecting value: line 1 column 1 (char 0)" := rfl

/-- C4 (amended): `load_error_catalog` returns the default catalog
(version "0", no entries) exactly when the backing resource is missing; a
present, well-formed resource is returned as parsed, and a present but
malformed/unreadable resource raises (the failure propagates to the caller). -/
theorem C4_load_behavior :
    load_error_catalog none = Except.ok ⟨some "0", []⟩ ∧
    (∀ c : Catalog, load_error_catalog (some (.ok c)) = Except.ok c) ∧
    (∀ msg : String, load_error_catalog (some (.malformed msg)) = Except.error msg) :=
  ⟨rfl, fun _ => rfl, fun _ => rfl⟩

theorem entryMatches_compiles {logs : List Char} {e : CatalogEntry}
    (h : entryMatches logs e = true) :
    (compilePattern ((e.pattern.getD "").toList)).isSome = true := by
  by_cases hp : e.pattern.getD "" = ""
  · rw [entryMatches, if_pos hp] at h
    exact absurd h (by simp)
  · rw [entryMatches, if_neg hp] at h
    cases hc : compilePattern ((e.pattern.getD "").toList) with
    | none => rw [hc] at h; simp at h
    | some r => simp [hc]

/-- C10: a catalog entry whose `pattern` field is absent or the empty string is
skipped by the scan (the `if pattern:` truthiness check), so removing all such
entries changes nothing in the scan result; yet the empty pattern itself would
compile and match any log text. -/
theorem C10_empty_pattern (lines : Nat) (v : Option String) (errs : List CatalogEntry)
    (logs : List Char) :
    scan_logs lines ⟨v, errs⟩ logs =
      scan_logs lines ⟨v, errs.filter (fun e => !(e.pattern.getD "" == ""))⟩ logs ∧
    compilePattern [] = some .emp ∧
    (∀ s : List Char, searchR .emp s = true) := by
  refine ⟨?_, by decide, ?_⟩
  · have hfound : scanFound errs logs =
        scanFound (errs.filter (fun e => !(e.pattern.getD "" == ""))) logs := by
      rw [scanFound, scanFound, List.filter_filter]
      refine congrArg (List.map mkFinding) (List.filter_congr ?_)
      intro e _
      by_cases hp : e.pattern.getD "" = ""
      · rw [entryMatches, if_pos hp]
        simp [hp]
      · simp [hp]
    rw [scan_logs, scan_logs]
    simp only [hfound]
  · intro s
    cases s <;> simp [searchR, mtch]

/-- C5: entries whose pattern does not compile are skipped silently — the scan
never raises (it is a total function), such entries contribute no finding, and
the other entries are still evaluated exactly as if the invalid ones were
absent. -/
theorem C5_invalid_skipped (errs : List CatalogEntry) (logs : List Char)
    (hbad : ∃ e ∈ errs, (compilePattern ((e.pattern.getD "").toList)).isNone) :
    scanFound errs logs =
      scanFound (errs.filter
        (fun e => (compilePattern ((e.pattern.getD "").toList)).isSome)) logs ∧
    (∀ f ∈ scanFound errs logs, ∃ e ∈ errs,
      (compilePattern ((e.pattern.getD "").toList)).isSome = true ∧ f = mkFinding e) := by
  constructor
  · rw [scanFound, scanFound, List.filter_filter]
    refine congrArg (List.map mkFinding) (List.filter_congr ?_)
    intro e _
    cases hm : entryMatches logs e with
    | false => simp
    | true => rw [entryMatches_compiles hm]; rfl
  · intro f hf
    rw [scanFound] at hf
    obtain ⟨e, he, rfl⟩ := List.mem_map.mp hf
    obtain ⟨he1, he2⟩ := List.mem_filter.mp he
    exact ⟨e, he1, entryMatches_compiles he2, rfl⟩

/-- C2: `scan_logs` passes `lines_scanned` and `catalog_version` through
unchanged, reports `count` as the number of findings, and derives `status` as
healthy when there are no findings, critical when at least one finding has
severity "high", and warning otherwise. -/
theorem C2_scan_status (lines : Nat) (cat : Catalog) (logs : List Char) :
    (scan_logs lines cat logs).lines_scanned = lines ∧
    (scan_logs lines cat logs).catalog_version = cat.version ∧
    (scan_logs lines cat logs).count = (scan_logs lines cat logs).errors_found.length ∧
    ((scan_logs lines cat logs).errors_found = [] →
      (scan_logs lines cat logs).status = "healthy") ∧
    ((∃ f ∈ (scan_logs lines cat logs).errors_found, f.severity = some "high") →
      (scan_logs lines cat logs).status = "critical") ∧
    ((scan_logs lines cat logs).errors_found ≠ [] →
      (∀ f ∈ (scan_logs lines cat logs).errors_found, f.severity ≠ some "high") →
      (scan_logs lines cat logs).status = "warning") := by
  refine ⟨rfl, rfl, rfl, ?_, ?_, ?_⟩
  · intro hempty
    have : (scanFound cat.errors logs).isEmpty = true := by
      rw [show scanFound cat.errors logs = (scan_logs lines cat logs).errors_found from rfl,
        hempty]
      rfl
    simp [scan_logs, this]
  · intro hex
    obtain ⟨f, hf, hsev⟩ := hex
    have hne : (scanFound cat.errors logs).isEmpty = false := by
      rw [List.isEmpty_eq_false_iff_exists_mem]
      exact ⟨f, hf⟩
    have hany : (scanFound cat.errors logs).any (fun f => f.severity == some "high") = true := by
      rw [List.any_eq_true]
      exact ⟨f, hf, by simp [hsev]⟩
    simp [scan_logs, hne, hany]
  · intro hne hall
    have hne' : (scanFound cat.errors logs).isEmpty = false := by
      rw [List.isEmpty_eq_false_iff_exists_mem]
      exact List.exists_mem_of_ne_nil _ hne
    have hany : (scanFound cat.errors logs).any (fun f => f.severity == some "high") = false := by
      rw [Bool.eq_false_iff]
      intro hcon
      obtain ⟨f, hf, hsev⟩ := List.any_eq_true.mp hcon
      exact hall f hf (by simpa using hsev)
    simp [scan_logs, hne', hany]

/-- C6: `lookup_error` returns exactly the catalog entries whose id equals the
query case-insensitively or whose serialized content contains the query
case-insensitively; each matching entry occurs in the result exactly as often
as in the catalog (once per catalog occurrence), and `count` is the number of
matches.  (Case-insensitive id equality is upper-case normalization, exactly
the code's `err.get("id","").upper() == query`; containment compares
lower-cased strings — the code's `query.lower()` is applied to the upper-cased
query, which is the same thing.) -/
theorem C6_lookup (q : List Char) (cat : Catalog) :
    (∀ e : CatalogEntry, e ∈ (lookup_error q cat).matched ↔
      (e ∈ cat.errors ∧ (upperL ((e.id.getD "").toList) = upperL q ∨
        occursL (lowerL q) (lowerL (serializeEntry e))))) ∧
    (lookup_error q cat).count = (lookup_error q cat).matched.length ∧
    (∀ e : CatalogEntry,
      (upperL ((e.id.getD "").toList) = upperL q ∨
          occursL (lowerL q) (lowerL (serializeEntry e))) →
        (lookup_error q cat).matched.count e = cat.errors.count e) ∧
    (∀ e : CatalogEntry,
      ¬(upperL ((e.id.getD "").toList) = upperL q ∨
          occursL (lowerL q) (lowerL (serializeEntry e))) →
        (lookup_error q cat).matched.count e = 0) := by
  have hpred : ∀ e : CatalogEntry,
      ((upperL ((e.id.getD "").toList) == upperL q) ||
        hasSeq (lowerL (upperL q)) (lowerL (serializeEntry e))) = true ↔
      (upperL ((e.id.getD "").toList) = upperL q ∨
        occursL (lowerL q) (lowerL (serializeEntry e))) := by
    intro e
    rw [Bool.or_eq_true, beq_iff_eq, lowerL_upperL, hasSeq_iff]
  refine ⟨?_, rfl, ?_, ?_⟩
  · intro e
    rw [show (lookup_error q cat).matched = cat.errors.filter
        (fun e => (upperL ((e.id.getD "").toList) == upperL q) ||
          hasSeq (lowerL (upperL q)) (lowerL (serializeEntry e))) from rfl]
    rw [List.mem_filter, hpred e]
  · intro e he
    rw [show (lookup_error q cat).matched = cat.errors.filter
        (fun e => (upperL ((e.id.getD "").toList) == upperL q) ||
          hasSeq (lowerL (upperL q)) (lowerL (serializeEntry e))) from rfl]
    exact List.count_filter ((hpred e).mpr he)
  · intro e he
    rw [show (lookup_error q cat).matched = cat.errors.filter
        (fun e => (upperL ((e.id.getD "").toList) == upperL q) ||
          hasSeq (lowerL (upperL q)) (lowerL (serializeEntry e))) from rfl]
    rw [List.count_eq_zero]
    intro hmem
    exact he ((hpred e).mp (List.mem_filter.mp hmem).2)

/-- C1: per identity, `check_x_accounts` classifies by strict precedence.  A
missing credential yields exactly the record `{status: missing, cookie_file:
false}` with no log-derived fields; otherwise the record carries the three
log-mining counts and the status is `active` when `activity > 0 ∧ errors = 0`
(a positive rate-limit count alone does not block `active`), else
`rate_limited` when `rate_limits > 0`, else `error` when `errors > 0`, else
`idle`. -/
theorem C1_classify (cred : Nat → Bool) (age : Nat → Option ℚ) (logs : List Char)
    (accounts : List Nat) (n : Nat) (hn : n ∈ accounts) :
    classifyOne cred age logs n ∈ (check_x_accounts cred age logs accounts).accounts ∧
    (cred n = false →
      classifyOne cred age logs n = ⟨n, "missing", false, none, none, none, none, none⟩) ∧
    (cred n = true →
      (classifyOne cred age logs n).cookie_file = true ∧
      (classifyOne cred age logs n).log_mentions = some (countACT n logs) ∧
      (classifyOne cred age logs n).rate_limits = some (count429 n logs) ∧
      (classifyOne cred age logs n).errors = some (countERR n logs) ∧
      (0 < countACT n logs ∧ countERR n logs = 0 →
        (classifyOne cred age logs n).status = "active") ∧
      (¬(0 < countACT n logs ∧ countERR n logs = 0) → 0 < count429 n logs →
        (classifyOne cred age logs n).status = "rate_limited") ∧
      (¬(0 < countACT n logs ∧ countERR n logs = 0) → count429 n logs = 0 →
        0 < countERR n logs → (classifyOne cred age logs n).status = "error") ∧
      (countACT n logs = 0 → count429 n logs = 0 → countERR n logs = 0 →
        (classifyOne cred age logs n).status = "idle")) := by
  refine ⟨?_, ?_, ?_⟩
  · rw [show (check_x_accounts cred age logs accounts).accounts =
      accounts.map (classifyOne cred age logs) from rfl]
    exact List.mem_map.mpr ⟨n, hn, rfl⟩
  · intro hc
    rw [classifyOne, hc]
    rfl
  · intro hc
    rw [classifyOne, hc]
    simp only [if_true]
    refine ⟨trivial, trivial, trivial, trivial, ?_, ?_, ?_, ?_⟩
    · intro hA
      simp [hA]
    · intro hA hR
      rw [if_neg hA, if_pos hR]
    · intro hA hR hE
      rw [if_neg hA, if_neg (by omega), if_pos hE]
    · intro h1 h2 h3
      rw [if_neg (by omega), if_neg (by omega), if_neg (by omega)]

/-- C3: the fleet aggregation counts `active` as the records with status
"active" (the code also accepts a status "scheduled", which no produced record
carries, so over well-formed records the two predicates agree), `errors` as
status ∈ {error, missing}, `idle_or_rate_limited` as status ∈
{idle, rate_limited}, and derives `overall` as healthy iff some active and no
errors, degraded iff some active and some errors, critical iff no active. -/
theorem C3_aggregate (rs : List AcctInfo) (total : Nat)
    (hwf : ∀ r ∈ rs,
      r.status ∈ (["missing", "active", "rate_limited", "error", "idle"] : List String)) :
    (aggregateFleet rs total).active = rs.countP (fun r => r.status == "active") ∧
    (aggregateFleet rs total).errors =
      rs.countP (fun r => r.status == "error" || r.status == "missing") ∧
    (aggregateFleet rs total).idle_or_rate_limited =
      rs.countP (fun r => r.status == "idle" || r.status == "rate_limited") ∧
    (aggregateFleet rs total).total = total ∧
    ((aggregateFleet rs total).overall = "healthy" ↔
      0 < (aggregateFleet rs total).active ∧ (aggregateFleet rs total).errors = 0) ∧
    ((aggregateFleet rs total).overall = "degraded" ↔
      0 < (aggregateFleet rs total).active ∧ 0 < (aggregateFleet rs total).errors) ∧
    ((aggregateFleet rs total).overall = "critical" ↔
      (aggregateFleet rs total).active = 0) := by
  have hactive : (aggregateFleet rs total).active = rs.countP (fun r => r.status == "active") := by
    rw [show (aggregateFleet rs total).active =
      rs.countP (fun r => r.status == "active" || r.status == "scheduled") from rfl]
    refine List.countP_congr ?_
    intro r hr
    have hs := hwf r hr
    simp only [List.mem_cons, List.not_mem_nil, or_false] at hs
    rcases hs with h | h | h | h | h <;> rw [h] <;> decide
  have hov : (aggregateFleet rs total).overall =
      (if 0 < (aggregateFleet rs total).active ∧ (aggregateFleet rs total).errors = 0
        then "healthy"
        else if 0 < (aggregateFleet rs total).active then "degraded" else "critical") := rfl
  refine ⟨hactive, rfl, rfl, rfl, ?_, ?_, ?_⟩
  · rw [hov]
    by_cases h1 : 0 < (aggregateFleet rs total).active ∧ (aggregateFleet rs total).errors = 0
    · simp [h1]
    · rw [if_neg h1]
      by_cases h2 : 0 < (aggregateFleet rs total).active <;> simp [h2] <;> tauto
  · rw [hov]
    by_cases h1 : 0 < (aggregateFleet rs total).active ∧ (aggregateFleet rs total).errors = 0
    · simp [h1]
      try omega
    · rw [if_neg h1]
      by_cases h2 : 0 < (aggregateFleet rs total).active <;> simp [h2] <;> try omega
  · rw [hov]
    by_cases h1 : 0 < (aggregateFleet rs total).active ∧ (aggregateFleet rs total).errors = 0
    · simp [h1]
      try omega
    · rw [if_neg h1]
      by_cases h2 : 0 < (aggregateFleet rs total).active <;> simp [h2] <;> try omega

/-- C7 counterexample: the activity count (`scheduled_count`, the only one of
the three `re.findall` calls made without `re.IGNORECASE`) changes when the
letter case of the log text changes: the two log texts below differ only in
case, yet the counts differ — so "each of the three per-identity counts is
computed via a case-insensitive search" is false. -/
theorem C7_counterexample :
    lowerL "X.twikit_account1 ready".toList = lowerL "x.twikit_account1 ready".toList ∧
    countACT 1 "X.twikit_account1 ready".toList = 1 ∧
    countACT 1 "x.twikit_account1 ready".toList = 0 :=
  ⟨by decide, by decide, by decide⟩

/-- C7 (amended): the rate-limit and error counts are computed with
`re.IGNORECASE` and are therefore unchanged under any change of letter case of
the log text; the activity count is case-sensitive (see the counterexample). -/
theorem C7_case_invariance (n : Nat) (s t : List Char) (h : lowerL s = lowerL t) :
    count429 n s = count429 n t ∧ countERR n s = countERR n t := by
  rw [count429, count429, countERR, countERR, h]
  exact ⟨rfl, rfl⟩

theorem C7_case_invariance_witness :
    lowerL "Twikit_Account5 GOT 429".toList = lowerL "twikit_account5 got 429".toList ∧
    count429 5 "Twikit_Account5 GOT 429".toList = count429 5 "twikit_account5 got 429".toList := by
  have h : lowerL "Twikit_Account5 GOT 429".toList = lowerL "twikit_account5 got 429".toList := by
    decide
  exact ⟨h, (C7_case_invariance 5 _ _ h).1⟩

/-- C8 counterexample: the tag does not distinguish an identity whose decimal
number is a prefix of another's.  The appended line `X.twikit_account12 ...`
mentions only identity 12 (its tag occurs, and no other identity's tag occurs
except as a strict prefix immediately followed by a further digit), yet
identity 1's record changes: its activity count picks up the line and its
status flips from idle to active.  So "log lines that mention only identity
j's tag contribute nothing to identity i's record" is false for i = 1,
j = 12. -/
theorem C8_counterexample :
    (1 : Nat) ≠ 12 ∧
    mentionsId 12 "X.twikit_account12 Completed scrape".toList = true ∧
    (∀ k ∈ List.range 18, k ≠ 12 →
      mentionsId k "X.twikit_account12 Completed scrape".toList = false) ∧
    (classifyOne (fun _ => true) (fun _ => none)
      ([] ++ '\n' :: "X.twikit_account12 Completed scrape".toList) 1).log_mentions = some 1 ∧
    (classifyOne (fun _ => true) (fun _ => none)
      ([] ++ '\n' :: "X.twikit_account12 Completed scrape".toList) 1).status = "active" ∧
    (classifyOne (fun _ => true) (fun _ => none) ([] : List Char) 1).log_mentions = some 0 ∧
    (classifyOne (fun _ => true) (fun _ => none) ([] : List Char) 1).status = "idle" :=
  ⟨by decide, by decide, by decide, by decide, by decide, by decide, by decide⟩

/-- C8 (amended): the three log scans are scoped by substring occurrence of
the identity tag.  For two distinct identities i and j, appending log lines
that mention identity j leaves identity i's record unchanged provided
identity i's tag does not occur in those lines as a (case-insensitive)
substring — which holds for j's log lines exactly when the decimal
representation of i is not a prefix of that of j. -/
theorem C8_tag_scoping (cred : Nat → Bool) (age : Nat → Option ℚ) (L line2 : List Char)
    (i j : Nat) (hij : i ≠ j) (hj : mentionsId j line2 = true)
    (hi : hasSeq (tagCh i) (lowerL line2) = false) :
    classifyOne cred age (L ++ '\n' :: line2) i = classifyOne cred age L i :=
  classifyOne_append cred age L line2 i hi

theorem C8_tag_scoping_witness :
    (2 : Nat) ≠ 3 ∧
    mentionsId 3 "X.twikit_account3 Completed scrape".toList = true ∧
    hasSeq (tagCh 2) (lowerL "X.twikit_account3 Completed scrape".toList) = false ∧
    classifyOne (fun _ => true) (fun _ => none)
        ("X.twikit_account2 ok".toList ++ '\n' :: "X.twikit_account3 Completed scrape".toList) 2 =
      classifyOne (fun _ => true) (fun _ => none) "X.twikit_account2 ok".toList 2 :=
  ⟨by decide, by decide, by decide,
    C8_tag_scoping (fun _ => true) (fun _ => none) _ _ 2 3 (by decide) (by decide) (by decide)⟩

/-- C9 counterexample: `check_x_accounts` iterates the `accounts` argument in
the order given; for the input list [2, 1] the produced records are in that
order, which is not ascending — so "Classify produces the sequence of records
in ascending numeric order" is false for this input. -/
theorem C9_counterexample :
    ((check_x_accounts (fun _ => true) (fun _ => none) [] [2, 1]).accounts.map
      (fun r => r.account)) = [2, 1] ∧
    ¬ List.Sorted (· ≤ ·)
      ((check_x_accounts (fun _ => true) (fun _ => none) [] [2, 1]).accounts.map
        (fun r => r.account)) := by
  have h1 : ((check_x_accounts (fun _ => true) (fun _ => none) [] [2, 1]).accounts.map
      (fun r => r.account)) = [2, 1] := by decide
  refine ⟨h1, ?_⟩
  rw [h1]
  intro hs
  rcases List.sorted_cons.mp hs with ⟨hb, _⟩
  exact absurd (hb 1 (by simp)) (by omega)

/-- C9 (amended): the records come out in the order of the input list — one
record per input identity, with `account` equal to that identity — so the
output is ascending exactly when the input sequence is (as the default input
`range(1, 18)` is). -/
theorem C9_input_order (cred : Nat → Bool) (age : Nat → Option ℚ) (logs : List Char)
    (accounts : List Nat) :
    (check_x_accounts cred age logs accounts).accounts.map (fun r => r.account) = accounts := by
  have hacc : ∀ n : Nat, (classifyOne cred age logs n).account = n := by
    intro n
    rw [classifyOne]
    by_cases h : cred n <;> simp [h]
  rw [show (check_x_accounts cred age logs accounts).accounts =
    accounts.map (classifyOne cred age logs) from rfl, List.map_map]
  calc accounts.map ((fun r => r.account) ∘ classifyOne cred age logs)
      = accounts.map id := List.map_congr_left (fun n _ => hacc n)
    _ = accounts := List.map_id _

theorem C2_scan_status_witness :
    (scan_logs 500
      ⟨some "1", [⟨some "X001", none, some "high", some "connection refused", none, none⟩]⟩
      "err: Connection Refused at line 5".toList).errors_found ≠ [] ∧
    (scan_logs 500
      ⟨some "1", [⟨some "X001", none, some "high", some "connection refused", none, none⟩]⟩
      "err: Connection Refused at line 5".toList).status = "critical" := by
  have h := C2_scan_status 500
    ⟨some "1", [⟨some "X001", none, some "high", some "connection refused", none, none⟩]⟩
    "err: Connection Refused at line 5".toList
  refine ⟨by decide, h.2.2.2.2.1 ?_⟩
  exact ⟨⟨some "X001", none, some "high", none, none⟩, by decide, by decide⟩

theorem C5_invalid_skipped_witness :
    (∃ e ∈ ([⟨some "X001", none, some "high", some "(", none, none⟩,
        ⟨some "X002", none, some "low", some "good", none, none⟩] : List CatalogEntry),
      (compilePattern ((e.pattern.getD "").toList)).isNone) ∧
    scanFound
        ([⟨some "X001", none, some "high", some "(", none, none⟩,
          ⟨some "X002", none, some "low", some "good", none, none⟩] : List CatalogEntry)
        "good stuff".toList =
      scanFound
        (([⟨some "X001", none, some "high", some "(", none, none⟩,
           ⟨some "X002", none, some "low", some "good", none, none⟩] : List CatalogEntry).filter
          (fun e => (compilePattern ((e.pattern.getD "").toList)).isSome))
        "good stuff".toList := by
  have hbad : ∃ e ∈ ([⟨some "X001", none, some "high", some "(", none, none⟩,
      ⟨some "X002", none, some "low", some "good", none, none⟩] : List CatalogEntry),
      (compilePattern ((e.pattern.getD "").toList)).isNone :=
    ⟨⟨some "X001", none, some "high", some "(", none, none⟩, by decide, by decide⟩
  exact ⟨hbad, (C5_invalid_skipped _ _ hbad).1⟩

theorem C6_lookup_witness :
    (⟨some "X001", none, some "high", some "connection refused", none, none⟩ : CatalogEntry) ∈
      (lookup_error "x001".toList ⟨some "1",
        [⟨some "X001", none, some "high", some "connection refused", none, none⟩,
         ⟨some "X002", none, some "low", some "other", none, none⟩]⟩).matched := by
  have h := (C6_lookup "x001".toList ⟨some "1",
    [⟨some "X001", none, some "high", some "connection refused", none, none⟩,
     ⟨some "X002", none, some "low", some "other", none, none⟩]⟩).1
    ⟨some "X001", none, some "high", some "connection refused", none, none⟩
  exact h.mpr ⟨by decide, Or.inl (by decide)⟩

theorem C1_classify_witness :
    (3 : Nat) ∈ ([3] : List Nat) ∧
    (classifyOne (fun _ => true) (fun _ => none) "X.twikit_account3 ok".toList 3).status
      = "active" := by
  have h := C1_classify (fun _ => true) (fun _ => none) "X.twikit_account3 ok".toList [3] 3
    (by decide)
  exact ⟨by decide, (h.2.2 rfl).2.2.2.2.1 ⟨by decide, by decide⟩⟩

theorem C3_aggregate_witness :
    (∀ r ∈ ([⟨1, "active", true, none, some 2, some 0, some 0, some true⟩,
        ⟨2, "error", true, none, some 0, some 0, some 1, some false⟩] : List AcctInfo),
      r.status ∈ (["missing", "active", "rate_limited", "error", "idle"] : List String)) ∧
    (aggregateFleet
      ([⟨1, "active", true, none, some 2, some 0, some 0, some true⟩,
        ⟨2, "error", true, none, some 0, some 0, some 1, some false⟩] : List AcctInfo)
      2).overall = "degraded" := by
  have hwf : ∀ r ∈ ([⟨1, "active", true, none, some 2, some 0, some 0, some true⟩,
      ⟨2, "error", true, none, some 0, some 0, some 1, some false⟩] : List AcctInfo),
      r.status ∈ (["missing", "active", "rate_limited", "error", "idle"] : List String) := by
    decide
  have h := C3_aggregate
    ([⟨1, "active", true, none, some 2, some 0, some 0, some true⟩,
      ⟨2, "error", true, none, some 0, some 0, some 1, some false⟩] : List AcctInfo) 2 hwf
  exact ⟨hwf, (h.2.2.2.2.2.1).mpr ⟨by decide, by decide⟩⟩

end SN13
